import Mathlib

/-!
Verification of the data-merging notebook
`merge_pancancer_somatic_mutations/get_pancancer_clinical_and_mutation_data.ipynb`.

The notebook is a linear ETL pipeline:
fetch two files, load a mutation table (five columns) and a label table,
attach positional row indices, inner-merge mutations with labels on that
row index, derive a 12-character patient barcode from the sample barcode,
drop the sample barcode, inner-merge with the clinical table on the patient
barcode, and serialize the merged table with a leading synthetic row index.

Python strings are modelled as `List Char`; tables as Lean lists of records
in file order.  The pandas `merge` (inner join keeping left order, and for
each left row the right rows in order) is modelled by `bind`/`filter`/`map`.
-/

set_option autoImplicit false

/-- Python slice `s[a:b]` for `0 ≤ a ≤ b`: drop the first `a` characters and
keep at most `b - a` of the rest (clamping at the end of the string, never
raising). -/
def pySlice (s : List Char) (a b : Nat) : List Char :=
  (s.drop a).take (b - a)

/-- `parsePatientBarcode` from the notebook:
`return tumor_sample_barcode[0:12]`. -/
def parsePatientBarcode (tumor_sample_barcode : List Char) : List Char :=
  pySlice tumor_sample_barcode 0 12

/-- A mutation record: the five columns the loader retains
(`usecols` of the `read_csv` call in the notebook). -/
structure MutationRec where
  tumor_sample_barcode : List Char
  hugo_symbol : List Char
  chromosome : List Char
  variant_classification : List Char
  variant_type : List Char
deriving DecidableEq, Repr

/-- A label record: the single renamed column of `labels.txt`. -/
structure LabelRec where
  cancer_type : List Char
deriving DecidableEq, Repr

/-- A clinical record: the nine columns the clinical loader retains. -/
structure ClinicalRec where
  bcr_patient_barcode : List Char
  gender : List Char
  vital_status : List Char
  days_to_birth : List Char
  days_to_death : List Char
  age_at_initial_pathologic_diagnosis : List Char
  pathologic_stage : List Char
  height : List Char
  weight : List Char
deriving DecidableEq, Repr

/-- A positionally merged mutation+label record: the mutation columns,
the shared `row` index, and the `cancer_type` brought in from the label
table (the column set after `mutations.merge(labels, on row)`). -/
structure MutLabelRec where
  tumor_sample_barcode : List Char
  hugo_symbol : List Char
  chromosome : List Char
  variant_classification : List Char
  variant_type : List Char
  row : Nat
  cancer_type : List Char
deriving DecidableEq, Repr

/-- A mutation+label record after patient-key derivation and the
`drop(['Tumor_Sample_Barcode'], axis=1)`: the sample barcode column is
gone, the derived `bcr_patient_barcode` column is present. -/
structure KeyedRec where
  hugo_symbol : List Char
  chromosome : List Char
  variant_classification : List Char
  variant_type : List Char
  row : Nat
  cancer_type : List Char
  bcr_patient_barcode : List Char
deriving DecidableEq, Repr

/-- `np.arange`-style row numbering starting at `n`: pairs each list
element with its ordinal position. -/
def rowsFrom {α : Type} : Nat → List α → List (Nat × α)
  | _, [] => []
  | n, x :: xs => (n, x) :: rowsFrom (n + 1) xs

/-- `mutations['row'] = np.arange(len(mutations))`: attach the zero-based
positional row index. -/
def addRowIndex {α : Type} (xs : List α) : List (Nat × α) :=
  rowsFrom 0 xs

/-- Build the merged mutation+label record out of the shared row index,
the mutation record and the label record. -/
def mkMutLabel (i : Nat) (m : MutationRec) (l : LabelRec) : MutLabelRec :=
  { tumor_sample_barcode := m.tumor_sample_barcode
    hugo_symbol := m.hugo_symbol
    chromosome := m.chromosome
    variant_classification := m.variant_classification
    variant_type := m.variant_type
    row := i
    cancer_type := l.cancer_type }

/-- Pandas inner merge of row-indexed mutations with row-indexed labels on
the `row` column (`left_on='row', right_on='row'`): for each left row, in
order, all right rows with an equal row index, in order. -/
def mlJoin (xs : List (Nat × MutationRec)) (ys : List (Nat × LabelRec)) :
    List MutLabelRec :=
  xs.flatMap fun im =>
    (ys.filter fun jl => jl.1 == im.1).map fun jl => mkMutLabel im.1 im.2 jl.2

/-- `mutations = mutations.merge(labels, left_on='row', right_on='row')`
after both tables got their `row` column from `np.arange`. -/
def mergeLabels (muts : List MutationRec) (labs : List LabelRec) :
    List MutLabelRec :=
  mlJoin (addRowIndex muts) (addRowIndex labs)

/-- The two cell-18 steps:
`mutations['bcr_patient_barcode'] = mutations['Tumor_Sample_Barcode'].apply(parsePatientBarcode)`
followed by `mutations.drop(['Tumor_Sample_Barcode'], axis=1)`. -/
def deriveKeyAndDrop (r : MutLabelRec) : KeyedRec :=
  { hugo_symbol := r.hugo_symbol
    chromosome := r.chromosome
    variant_classification := r.variant_classification
    variant_type := r.variant_type
    row := r.row
    cancer_type := r.cancer_type
    bcr_patient_barcode := parsePatientBarcode r.tumor_sample_barcode }

/-- `merged = mutations.merge(clinical, left_on='bcr_patient_barcode',
right_on='bcr_patient_barcode')`: pandas inner merge on the patient
barcode — for each mutation+label row, in order, all clinical rows with
an equal barcode, in order. -/
def mergeClinical (ks : List KeyedRec) (cs : List ClinicalRec) :
    List (KeyedRec × ClinicalRec) :=
  ks.flatMap fun k =>
    (cs.filter fun c => c.bcr_patient_barcode == k.bcr_patient_barcode).map
      fun c => (k, c)

/-- The whole merge stage of the notebook: positional label merge,
patient-key derivation with barcode drop, then the clinical merge. -/
def runMerge (muts : List MutationRec) (labs : List LabelRec)
    (cs : List ClinicalRec) : List (KeyedRec × ClinicalRec) :=
  mergeClinical ((mergeLabels muts labs).map deriveKeyAndDrop) cs

/-- `merged.to_csv(...)`: pandas writes the dataframe with a leading
synthetic row index column; modelled as numbering the merged rows. -/
def toCsvRows (rows : List (KeyedRec × ClinicalRec)) :
    List (Nat × KeyedRec × ClinicalRec) :=
  rowsFrom 0 rows

/-- The complete pipeline from in-memory input tables to serialized
output rows. -/
def pipelineOutput (muts : List MutationRec) (labs : List LabelRec)
    (cs : List ClinicalRec) : List (Nat × KeyedRec × ClinicalRec) :=
  toCsvRows (runMerge muts labs cs)

/-- Number of clinical rows carrying a given patient barcode. -/
def dupFactor (cs : List ClinicalRec) (b : List Char) : Nat :=
  (cs.filter fun c => c.bcr_patient_barcode == b).length

/-- The maximum duplication factor of any patient barcode occurring in
the clinical table. -/
def maxDupFactor (cs : List ClinicalRec) : Nat :=
  (cs.map fun c => dupFactor cs c.bcr_patient_barcode).foldr max 0

/-! ### Fetcher -/

/-- A local file system: an association of file names to byte contents. -/
def FileSys : Type := List (String × List Nat)

/-- `os.path.isfile(filename)`. -/
def isFile (fs : FileSys) (name : String) : Bool :=
  fs.any fun p => p.1 == name

/-- One download cell of the notebook: if `os.path.isfile(filename)` then
skip, else `urllib.request.urlretrieve(url, filename)` writes the remote
bytes to the file.  Returns the resulting file system and whether a
download was performed. -/
def fetchStep (fs : FileSys) (name : String) (remote : List Nat) :
    FileSys × Bool :=
  if isFile fs name then (fs, false) else ((name, remote) :: fs, true)

/-! ### Loaders -/

/-- Pandas `read_csv(..., usecols=cols)` on a parsed table given as a
header row and data rows: fails (raises `ValueError`) when some requested
column is absent from the header; otherwise projects the header and every
row onto the requested columns, kept in file order. -/
def readCsvUsecols (usecols : List String) (header : List String)
    (rows : List (List String)) :
    Option (List String × List (List String)) :=
  if usecols.all fun c => header.contains c then
    some (header.filter (fun c => usecols.contains c),
          rows.map fun r =>
            (header.zip r).filterMap fun p =>
              if usecols.contains p.1 then some p.2 else none)
  else
    none

/-- The five columns of the mutation loader's `usecols`. -/
def expectedMutationCols : List String :=
  ["Tumor_Sample_Barcode", "Hugo_Symbol", "Variant_Classification",
   "Variant_Type", "Chromosome"]

/-- The notebook's mutation `read_csv` call, applied to the parsed file. -/
def loadMutations (header : List String) (rows : List (List String)) :
    Option (List String × List (List String)) :=
  readCsvUsecols expectedMutationCols header rows

/-! ### Helper lemmas -/

theorem rowsFrom_mem_ge {α : Type} :
    ∀ (xs : List α) (n : Nat) (p : Nat × α), p ∈ rowsFrom n xs → n ≤ p.1 := by
  intro xs
  induction xs with
  | nil => intro n p h; cases h
  | cons x xs ih =>
    intro n p h
    cases h with
    | head => exact Nat.le_refl n
    | tail _ h' => exact Nat.le_trans (Nat.le_succ n) (ih (n + 1) p h')

theorem rowsFrom_filter_lt {α : Type} :
    ∀ (ys : List α) (n i : Nat), i < n →
      (rowsFrom n ys).filter (fun p => p.1 == i) = [] := by
  intro ys
  induction ys with
  | nil => intro n i _; rfl
  | cons y ys ih =>
    intro n i h
    simp only [rowsFrom, List.filter]
    have hne : (n == i) = false := by
      simp only [beq_eq_false_iff_ne]
      exact Nat.ne_of_gt h
    simp only [hne]
    exact ih (n + 1) i (Nat.lt_trans h (Nat.lt_succ_self n))

theorem rowsFrom_length {α : Type} :
    ∀ (xs : List α) (n : Nat), (rowsFrom n xs).length = xs.length := by
  intro xs
  induction xs with
  | nil => intro n; rfl
  | cons x xs ih =>
    intro n
    simp only [rowsFrom, List.length_cons, ih]

theorem mlJoin_nil_right :
    ∀ xs : List (Nat × MutationRec), mlJoin xs [] = [] := by
  intro xs
  induction xs with
  | nil => rfl
  | cons x xs ih =>
    simp only [mlJoin, List.flatMap_cons, List.filter_nil, List.map_nil,
      List.nil_append]
    exact ih

theorem mlJoin_cons_skip :
    ∀ (xs : List (Nat × MutationRec)) (n : Nat) (y : LabelRec)
      (ys : List (Nat × LabelRec)), (∀ p ∈ xs, n < p.1) →
      mlJoin xs ((n, y) :: ys) = mlJoin xs ys := by
  intro xs
  induction xs with
  | nil => intro n y ys _; rfl
  | cons x xs ih =>
    intro n y ys h
    have hx : n < x.1 := h x (List.mem_cons_self x xs)
    have hfe : List.filter (fun jl : Nat × LabelRec => jl.1 == x.1)
        ((n, y) :: ys) = List.filter (fun jl => jl.1 == x.1) ys := by
      simp [List.filter_cons, Nat.ne_of_lt hx]
    have ih' := ih n y ys (fun p hp => h p (List.mem_cons_of_mem x hp))
    simp only [mlJoin] at ih' ⊢
    simp only [List.flatMap_cons]
    rw [hfe, ih']

theorem mlJoin_rowsFrom :
    ∀ (muts : List MutationRec) (labs : List LabelRec) (n : Nat),
      mlJoin (rowsFrom n muts) (rowsFrom n labs) =
        (rowsFrom n (muts.zip labs)).map fun p => mkMutLabel p.1 p.2.1 p.2.2 := by
  intro muts
  induction muts with
  | nil => intro labs n; rfl
  | cons m ms ih =>
    intro labs n
    cases labs with
    | nil =>
      simp only [List.zip_nil_right, rowsFrom, List.map_nil]
      exact mlJoin_nil_right _
    | cons l ls =>
      have hfilter :
          ((((n : Nat), l) :: rowsFrom (n + 1) ls).filter
              fun jl => jl.1 == n) = [(n, l)] := by
        simp only [List.filter_cons, beq_self_eq_true, if_true]
        rw [rowsFrom_filter_lt ls (n + 1) n (Nat.lt_succ_self n)]
      have hskip :
          mlJoin (rowsFrom (n + 1) ms) ((n, l) :: rowsFrom (n + 1) ls) =
            mlJoin (rowsFrom (n + 1) ms) (rowsFrom (n + 1) ls) :=
        mlJoin_cons_skip _ n l _
          (fun p hp => Nat.lt_of_lt_of_le (Nat.lt_succ_self n)
            (rowsFrom_mem_ge ms (n + 1) p hp))
      simp only [rowsFrom, List.zip_cons_cons, List.map_cons]
      simp only [mlJoin, List.flatMap_cons, hfilter, List.map_cons, List.map_nil]
      simp only [mlJoin] at hskip ih
      rw [hskip, ih ls (n + 1)]
      rfl

/-! ### C1: the positional join -/

/-- C1: the positional join equals row-numbering the element-wise zip of
the two tables — the mutation record at position `i` is paired with the
label record at position `i`, exactly for `i < min N M`, and no other
pairs occur; in particular the result has `min N M` rows. -/
theorem mergeLabels_eq_zip (muts : List MutationRec) (labs : List LabelRec) :
    mergeLabels muts labs =
        ((addRowIndex (muts.zip labs)).map fun p => mkMutLabel p.1 p.2.1 p.2.2) ∧
      (mergeLabels muts labs).length = min muts.length labs.length := by
  have h := mlJoin_rowsFrom muts labs 0
  constructor
  · simpa only [mergeLabels, addRowIndex] using h
  · simp only [mergeLabels, addRowIndex, h, List.length_map, rowsFrom_length,
      List.length_zip]

/-! ### C5 / C9: patient-key derivation -/

/-- C5: for every sample barcode string the derived patient barcode is
exactly the first 12 characters, and for barcodes of length at least 12
the result has length exactly 12 (the fixed-width prefix). -/
theorem parsePatientBarcode_eq_take (s : List Char) :
    parsePatientBarcode s = s.take 12 ∧
      (12 ≤ s.length → (parsePatientBarcode s).length = 12) := by
  constructor
  · simp [parsePatientBarcode, pySlice]
  · intro h
    simp [parsePatientBarcode, pySlice]
    omega

/-- Concrete instantiation of `parsePatientBarcode_eq_take` at a 15-character
barcode. -/
theorem parsePatientBarcode_eq_take_witness :
    parsePatientBarcode
        ['T','C','G','A','-','0','2','-','0','0','0','3','-','0','1'] =
      (['T','C','G','A','-','0','2','-','0','0','0','3','-','0','1'] :
        List Char).take 12 ∧
    (parsePatientBarcode
        ['T','C','G','A','-','0','2','-','0','0','0','3','-','0','1']).length
      = 12 :=
  ⟨(parsePatientBarcode_eq_take _).1,
   (parsePatientBarcode_eq_take _).2 (by decide)⟩

/-- C9: on barcodes shorter than 12 characters the derivation returns the
whole barcode unchanged; the function is total, so no error is possible. -/
theorem parsePatientBarcode_short (s : List Char) (h : s.length < 12) :
    parsePatientBarcode s = s := by
  simp only [parsePatientBarcode, pySlice, List.drop_zero]
  exact List.take_of_length_le (Nat.le_of_lt h)

/-- Concrete instantiation of `parsePatientBarcode_short` on the short
barcode "AB" and implicitly on the empty string via length 2 < 12. -/
theorem parsePatientBarcode_short_witness :
    parsePatientBarcode ['A', 'B'] = ['A', 'B'] :=
  parsePatientBarcode_short ['A', 'B'] (by decide)

/-! ### Concrete sample data used by counterexamples and witnesses -/

/-- A 12-character patient barcode. -/
def bc12 : List Char := ['T', 'C', 'G', 'A', '0', '0', '0', '0', '0', '0', '0', '1']

/-- A sample mutation record whose sample barcode extends `bc12`. -/
def mutA : MutationRec :=
  { tumor_sample_barcode := bc12 ++ ['-', '0', '1']
    hugo_symbol := ['G', '1']
    chromosome := ['1']
    variant_classification := ['M']
    variant_type := ['S'] }

/-- A second sample mutation record. -/
def mutB : MutationRec :=
  { tumor_sample_barcode := ['O', 'T', 'H', 'E', 'R']
    hugo_symbol := ['G', '2']
    chromosome := ['2']
    variant_classification := ['N']
    variant_type := ['D'] }

/-- A sample label record. -/
def labL : LabelRec := { cancer_type := ['L', 'U', 'A', 'D'] }

/-- A sample clinical record whose patient barcode is `bc12`. -/
def clinC : ClinicalRec :=
  { bcr_patient_barcode := bc12
    gender := ['f']
    vital_status := ['a']
    days_to_birth := []
    days_to_death := []
    age_at_initial_pathologic_diagnosis := []
    pathologic_stage := ['I']
    height := []
    weight := [] }

/-! ### C2: behaviour on mismatched table lengths -/

/-- C2 is false of the code: with a 2-row mutation table and a 1-row label
table (so N ≠ M) the merge does not abort — it succeeds and produces
exactly the one truncated row pairing position 0 with position 0. -/
theorem mergeLabels_mismatch_no_failure :
    ([mutA, mutB].length ≠ [labL].length) ∧
      mergeLabels [mutA, mutB] [labL] = [mkMutLabel 0 mutA labL] := by
  decide

/-- C2 (amended): when the mutation table and the label table have
different lengths the positional merge does not fail; it silently
truncates, producing exactly `min N M` rows. -/
theorem mergeLabels_mismatch_truncates (muts : List MutationRec)
    (labs : List LabelRec) (_h : muts.length ≠ labs.length) :
    (mergeLabels muts labs).length = min muts.length labs.length := by
  have h0 := mlJoin_rowsFrom muts labs 0
  simp only [mergeLabels, addRowIndex, h0, List.length_map, rowsFrom_length,
    List.length_zip]

/-- Concrete instantiation of `mergeLabels_mismatch_truncates` at tables
of lengths 2 and 1. -/
theorem mergeLabels_mismatch_truncates_witness :
    (mergeLabels [mutA, mutB] [labL]).length =
      min [mutA, mutB].length [labL].length :=
  mergeLabels_mismatch_truncates [mutA, mutB] [labL] (by decide)

/-! ### C3: the clinical key join -/

theorem count_map_pair (l : List ClinicalRec) (a k : KeyedRec)
    (c : ClinicalRec) :
    (l.map fun x => (a, x)).count (k, c) = if a = k then l.count c else 0 := by
  induction l with
  | nil => simp
  | cons x l ih =>
    simp only [List.map_cons, List.count_cons, ih]
    by_cases hak : a = k
    · subst hak
      by_cases hxc : c = x
      · subst hxc; simp
      · simp [hxc, Prod.ext_iff]
    · simp [hak, Prod.ext_iff]

theorem count_filter_bcr (cs : List ClinicalRec) (c : ClinicalRec)
    (b : List Char) :
    (cs.filter fun x => x.bcr_patient_barcode == b).count c =
      if c.bcr_patient_barcode = b then cs.count c else 0 := by
  by_cases hc : c.bcr_patient_barcode = b
  · rw [if_pos hc]
    exact List.count_filter (by simp [hc])
  · rw [if_neg hc]
    refine List.count_eq_zero.2 fun hmem => ?_
    exact hc (by simpa using (List.mem_filter.1 hmem).2)

/-- C3: counting characterization of the clinical inner merge.  A pair
`(k, c)` occurs in the merged output `count k · count c` times when the
patient barcodes agree and never otherwise: every (mutation-label,
clinical) pair sharing a barcode appears exactly once (for rows occurring
once on each side), unmatched mutation-label rows produce no output pair,
and unmatched clinical rows produce no output pair. -/
theorem mergeClinical_count (ks : List KeyedRec) (cs : List ClinicalRec)
    (k : KeyedRec) (c : ClinicalRec) :
    (mergeClinical ks cs).count (k, c) =
      if c.bcr_patient_barcode = k.bcr_patient_barcode then
        ks.count k * cs.count c
      else 0 := by
  induction ks with
  | nil => simp [mergeClinical]
  | cons a ks ih =>
    simp only [mergeClinical, List.flatMap_cons, List.count_append] at ih ⊢
    rw [count_map_pair, count_filter_bcr, ih, List.count_cons]
    by_cases hak : a = k
    · subst hak
      by_cases hbc : c.bcr_patient_barcode = a.bcr_patient_barcode
      · simp [hbc]; ring
      · simp [hbc]
    · by_cases hbc : c.bcr_patient_barcode = k.bcr_patient_barcode
      · simp [hak, hbc, Ne.symm hak]
      · simp [hak, hbc]

/-! ### C4: bounds on the merged row count -/

theorem le_foldr_max (l : List Nat) (a : Nat) (h : a ∈ l) :
    a ≤ l.foldr max 0 := by
  induction l with
  | nil => cases h
  | cons x l ih =>
    cases h with
    | head => exact Nat.le_max_left _ _
    | tail _ h' =>
      exact Nat.le_trans (ih h') (Nat.le_max_right _ _)

theorem dupFactor_le_maxDupFactor (cs : List ClinicalRec) (b : List Char) :
    dupFactor cs b ≤ maxDupFactor cs := by
  cases hd : dupFactor cs b with
  | zero => exact Nat.zero_le _
  | succ m =>
    have hne : (cs.filter fun c => c.bcr_patient_barcode == b) ≠ [] := by
      intro hnil
      rw [dupFactor, hnil] at hd
      cases hd
    obtain ⟨c, hc⟩ := List.exists_mem_of_ne_nil _ hne
    have hcs : c ∈ cs := (List.mem_filter.1 hc).1
    have hcb : c.bcr_patient_barcode = b := by
      simpa using (List.mem_filter.1 hc).2
    rw [← hd, ← hcb]
    exact le_foldr_max _ _ (List.mem_map.2 ⟨c, hcs, rfl⟩)

theorem mergeClinical_length_le (ks : List KeyedRec)
    (cs : List ClinicalRec) :
    (mergeClinical ks cs).length ≤ ks.length * maxDupFactor cs := by
  rw [mergeClinical, List.length_flatMap]
  have hb : ∀ x ∈ ks.map fun k =>
      ((cs.filter fun c =>
          c.bcr_patient_barcode == k.bcr_patient_barcode).map
        fun c => (k, c)).length, x ≤ maxDupFactor cs := by
    intro x hx
    obtain ⟨k, _, rfl⟩ := List.mem_map.1 hx
    rw [List.length_map]
    exact dupFactor_le_maxDupFactor cs _
  calc (ks.map fun k =>
      ((cs.filter fun c =>
          c.bcr_patient_barcode == k.bcr_patient_barcode).map
        fun c => (k, c)).length).sum
      ≤ (ks.map fun k =>
          ((cs.filter fun c =>
              c.bcr_patient_barcode == k.bcr_patient_barcode).map
            fun c => (k, c)).length).length * maxDupFactor cs := by
        simpa [smul_eq_mul] using List.sum_le_card_nsmul _ (maxDupFactor cs) hb
    _ = ks.length * maxDupFactor cs := by rw [List.length_map]

/-- C4 is false of the code: with one mutation row, one label row, and a
clinical table whose barcode `bc12` occurs twice, the merged output has 2
rows, which exceeds the 1 mutation row — the claimed pair of bounds fails
at this input. -/
theorem runMerge_length_counterexample :
    ¬ ((runMerge [mutA] [labL] [clinC, clinC]).length ≤ [mutA].length ∧
        (runMerge [mutA] [labL] [clinC, clinC]).length ≤
          [clinC, clinC].length * maxDupFactor [clinC, clinC]) := by
  decide

/-- C4 (amended): the merged output has at most
`min N M * maxDupFactor clinical` rows, where `min N M` is the number of
positionally joined mutation-label rows and `maxDupFactor` is the largest
number of clinical rows sharing one patient barcode. -/
theorem runMerge_length_le (muts : List MutationRec) (labs : List LabelRec)
    (cs : List ClinicalRec) :
    (runMerge muts labs cs).length ≤
      min muts.length labs.length * maxDupFactor cs := by
  have h1 := mergeClinical_length_le ((mergeLabels muts labs).map
    deriveKeyAndDrop) cs
  have h2 : ((mergeLabels muts labs).map deriveKeyAndDrop).length =
      min muts.length labs.length := by
    have h0 := mlJoin_rowsFrom muts labs 0
    simp only [List.length_map, mergeLabels, addRowIndex, h0,
      rowsFrom_length, List.length_zip]
  rw [runMerge]
  rw [h2] at h1
  exact h1

/-! ### C6: fetcher idempotence -/

/-- C6: when the local file already exists, the fetch step performs no
download (the download flag is `false`) and leaves the whole file system —
in particular that file's bytes — unchanged. -/
theorem fetchStep_skip_when_present (fs : FileSys) (name : String)
    (remote : List Nat) (h : isFile fs name = true) :
    fetchStep fs name remote = (fs, false) := by
  simp [fetchStep, h]

/-- Concrete instantiation of `fetchStep_skip_when_present` on a file
system already holding the mutation archive. -/
theorem fetchStep_skip_when_present_witness :
    fetchStep [("pancancer_mutations.maf.gz", [7, 7, 7])]
        "pancancer_mutations.maf.gz" [1, 2, 3] =
      ([("pancancer_mutations.maf.gz", [7, 7, 7])], false) :=
  fetchStep_skip_when_present _ _ _ (by decide)

/-! ### C7: mutation loader column checking -/

/-- C7: the mutation loader fails (returns `none`, pandas raises) exactly
when one of the five expected columns is absent from the source header;
when all five are present it succeeds, and the resulting header holds
exactly the expected columns. -/
theorem loadMutations_column_check (header : List String)
    (rows : List (List String)) :
    ((∃ c, c ∈ expectedMutationCols ∧ c ∉ header) →
        loadMutations header rows = none) ∧
      ((∀ c ∈ expectedMutationCols, c ∈ header) →
        ∃ hdr rest, loadMutations header rows = some (hdr, rest) ∧
          ∀ c, c ∈ hdr ↔ c ∈ expectedMutationCols) := by
  constructor
  · rintro ⟨c, hc, hnc⟩
    rw [loadMutations, readCsvUsecols, if_neg]
    intro hall
    exact hnc (by simpa using (List.all_eq_true.1 hall c hc))
  · intro hall
    have hcond : (expectedMutationCols.all fun c => header.contains c) = true := by
      rw [List.all_eq_true]
      intro c hc
      simpa using hall c hc
    refine ⟨header.filter fun c => expectedMutationCols.contains c, _,
      by rw [loadMutations, readCsvUsecols, if_pos hcond], fun c => ?_⟩
    constructor
    · intro hmem
      have := (List.mem_filter.1 hmem).2
      simpa using this
    · intro hmem
      exact List.mem_filter.2 ⟨hall c hmem, by simpa using hmem⟩

/-- Concrete instantiation of `loadMutations_column_check`: a header
missing `Chromosome` makes the loader fail, and the full five-column
header makes it succeed. -/
theorem loadMutations_column_check_witness :
    loadMutations ["Tumor_Sample_Barcode", "Hugo_Symbol",
        "Variant_Classification", "Variant_Type"] [] = none ∧
      loadMutations ["Tumor_Sample_Barcode", "Hugo_Symbol",
          "Variant_Classification", "Variant_Type", "Chromosome"]
        [["a", "b", "c", "d", "e"]] ≠ none := by
  constructor
  · exact (loadMutations_column_check _ _).1 ⟨"Chromosome", by decide, by decide⟩
  · have h := (loadMutations_column_check ["Tumor_Sample_Barcode",
      "Hugo_Symbol", "Variant_Classification", "Variant_Type", "Chromosome"]
      [["a", "b", "c", "d", "e"]]).2 (by decide)
    obtain ⟨hdr, rest, heq, _⟩ := h
    simp [heq]

/-! ### C8: the sample barcode is dropped, all other fields carried -/

/-- The merged pair produced by the sample tables, used as a concrete
member of the merged output. -/
def samplePair : KeyedRec × ClinicalRec :=
  (deriveKeyAndDrop (mkMutLabel 0 mutA labL), clinC)

/-- C8: key derivation replaces the sample barcode with its 12-character
prefix while leaving every other attribute unchanged (the `KeyedRec` type
has no sample-barcode field at all, reflecting the dropped column), and
every record of the final merged output is such a keyed record. -/
theorem runMerge_drops_sample_barcode :
    (∀ r : MutLabelRec,
        (deriveKeyAndDrop r).bcr_patient_barcode =
            parsePatientBarcode r.tumor_sample_barcode ∧
          (deriveKeyAndDrop r).hugo_symbol = r.hugo_symbol ∧
          (deriveKeyAndDrop r).chromosome = r.chromosome ∧
          (deriveKeyAndDrop r).variant_classification =
            r.variant_classification ∧
          (deriveKeyAndDrop r).variant_type = r.variant_type ∧
          (deriveKeyAndDrop r).row = r.row ∧
          (deriveKeyAndDrop r).cancer_type = r.cancer_type) ∧
      ∀ (muts : List MutationRec) (labs : List LabelRec)
        (cs : List ClinicalRec) (p : KeyedRec × ClinicalRec),
        p ∈ runMerge muts labs cs →
          p.1 ∈ (mergeLabels muts labs).map deriveKeyAndDrop := by
  constructor
  · intro r
    exact ⟨rfl, rfl, rfl, rfl, rfl, rfl, rfl⟩
  · intro muts labs cs p hp
    simp only [runMerge, mergeClinical, List.mem_flatMap, List.mem_map] at hp
    obtain ⟨k, hk, c, _, rfl⟩ := hp
    exact List.mem_map.2 hk

/-- Concrete instantiation of `runMerge_drops_sample_barcode` at the
sample tables: the merged pair's mutation part is a keyed record, and its
patient barcode is the 12-character prefix of the sample barcode. -/
theorem runMerge_drops_sample_barcode_witness :
    (deriveKeyAndDrop (mkMutLabel 0 mutA labL)).bcr_patient_barcode =
        parsePatientBarcode (mkMutLabel 0 mutA labL).tumor_sample_barcode ∧
      samplePair.1 ∈ (mergeLabels [mutA] [labL]).map deriveKeyAndDrop :=
  ⟨(runMerge_drops_sample_barcode.1 (mkMutLabel 0 mutA labL)).1,
   runMerge_drops_sample_barcode.2 [mutA] [labL] [clinC] samplePair
     (by decide)⟩

/-! ### C10: determinism of the pipeline -/

/-- C10: the pipeline is a pure function of its three input tables — two
runs on equal (byte-identical) mutation, label, and clinical inputs
produce equal serialized outputs, row for row and column for column. -/
theorem pipelineOutput_deterministic (muts1 muts2 : List MutationRec)
    (labs1 labs2 : List LabelRec) (cs1 cs2 : List ClinicalRec)
    (hm : muts1 = muts2) (hl : labs1 = labs2) (hc : cs1 = cs2) :
    pipelineOutput muts1 labs1 cs1 = pipelineOutput muts2 labs2 cs2 := by
  subst hm
  subst hl
  subst hc
  rfl

/-- Concrete instantiation of `pipelineOutput_deterministic` on the sample
tables. -/
theorem pipelineOutput_deterministic_witness :
    pipelineOutput [mutA] [labL] [clinC] =
      pipelineOutput [mutA] [labL] [clinC] :=
  pipelineOutput_deterministic [mutA] [mutA] [labL] [labL] [clinC] [clinC]
    rfl rfl rfl
